import Mathlib

/-!
Verification of `articles_scrapper.py` (ktotok/articles_scraper), a crawler
for a medical-encyclopedia site.  The definitions below are a shallow
embedding of the script: Python dicts with optional keys become structures
and inductives with `Option` fields, exceptions become explicit error
values, and the side-effecting accumulation of `recursive_article_list_processing`
becomes explicit result passing together with a Boolean flag recording
whether an exception escaped the call.
-/

/-- Python exception values that the embedded code can raise. -/
inductive PyErr where
  | keyError (key : String)
  | nameError (name : String)
  | indexError
  | attributeError
  | typeError
deriving DecidableEq, Repr

/-! ## The listing tree (`recursive_article_list_processing`, lines 115-141)

A node of the listing JSON is a dict with optional keys `text`, `nodes`,
`href`.  `branch` is a node whose dict has the key `nodes` (even with an
empty list of children); `leaf` is a node without the key `nodes`. -/

inductive ListingNode where
  | branch (text : Option String) (nodes : List ListingNode) (href : Option String)
  | leaf (text : Option String) (href : Option String)

/-- The `text` field of a node, when the key is present. -/
def ListingNode.text? : ListingNode → Option String
  | .branch t _ _ => t
  | .leaf t _ => t

/-- One flattened article reference, as appended to `result_article_data`. -/
structure ArticleRec where
  list_name : String
  title : String
  article_href : String
deriving DecidableEq, Repr

mutual
/-- Embedding of `recursive_article_list_processing(root_node_name, tree, result)`.
Returns the records the call appends (in order) and `true` iff an exception
escaped the call.  The only exception that can escape is the `KeyError`
raised before the `try` block when the node has no `text`; every exception
raised inside the `try` (in particular one propagating out of a recursive
child call) is caught, logged and swallowed by the bare `return`. -/
def recProcess (rootName : String) : ListingNode → List ArticleRec × Bool
  | .leaf none _ => ([], true)
  | .branch none _ _ => ([], true)
  | .leaf (some cur) href =>
    ((if cur = "New article" then []
      else match href with
        | none => []
        | some h => [⟨rootName, cur, h⟩]), false)
  | .branch (some cur) cs _ =>
    ((recProcessList (rootName ++ " ^ " ++ cur) cs).1, false)

/-- The `for node in tree['nodes']` loop: children are processed left to
right; when a child call raises, the loop stops there (the flag reports the
escaped exception to the caller, who may or may not catch it). -/
def recProcessList (listName : String) : List ListingNode → List ArticleRec × Bool
  | [] => ([], false)
  | c :: rest =>
    match recProcess listName c with
    | (out, true) => (out, true)
    | (out, false) =>
      match recProcessList listName rest with
      | (out2, raised2) => (out ++ out2, raised2)
end

/-- Embedding of the flattening done by `parse_articles_lists` (lines
170-177) on the root node `articles_list[0]`: reads `['text']` and
`['nodes']` of the root (an uncaught `KeyError`, hence `none`, when either
key is missing) and runs the recursion on each top-level child with the
root text as the initial breadcrumb.  The loop has no `try`, so an
exception escaping a top-level call aborts the whole listing (`none`). -/
def flattenListing : ListingNode → Option (List ArticleRec)
  | .branch (some rt) cs _ =>
    match recProcessList rt cs with
    | (out, false) => some out
    | (_, true) => none
  | _ => none

/-! ## Specification-side views of the tree -/

mutual
/-- Every node of the tree carries `text` (the well-formedness invariant of
the specification). -/
def wellFormed : ListingNode → Bool
  | .leaf t _ => t.isSome
  | .branch t cs _ => t.isSome && wellFormedList cs

def wellFormedList : List ListingNode → Bool
  | [] => true
  | c :: rest => wellFormed c && wellFormedList rest
end

mutual
/-- Depth-first left-to-right list of the emitting leaves of a tree: for
each leaf that has an `href` and whose text is not "New article", the
chain of ancestor texts strictly below the starting node, the leaf text
and the leaf href, in document order. -/
def leavesAnc : ListingNode → List (List String × String × String)
  | .leaf none _ => []
  | .leaf (some _) none => []
  | .leaf (some cur) (some h) =>
    if cur = "New article" then [] else [([], cur, h)]
  | .branch none _ _ => []
  | .branch (some cur) cs _ =>
    (leavesAncList cs).map (fun x => (cur :: x.1, x.2.1, x.2.2))

def leavesAncList : List ListingNode → List (List String × String × String)
  | [] => []
  | c :: rest => leavesAnc c ++ leavesAncList rest
end

mutual
/-- The number of leaf nodes carrying an `href` whose text is not
"New article". -/
def countGoodLeaves : ListingNode → Nat
  | .leaf (some cur) (some _) => if cur = "New article" then 0 else 1
  | .leaf _ _ => 0
  | .branch _ cs _ => countGoodLeavesList cs

def countGoodLeavesList : List ListingNode → Nat
  | [] => 0
  | c :: rest => countGoodLeaves c + countGoodLeavesList rest
end

/-- Folding the breadcrumb the way the code does: each step appends
" ^ " and the next ancestor text. -/
def joinName (r : String) : List String → String
  | [] => r
  | a :: l => joinName (r ++ " ^ " ++ a) l

/-- The record the code emits for a leaf with ancestor chain `r :: anc`. -/
def dfsRecords (r : String) (t : ListingNode) : List ArticleRec :=
  (leavesAnc t).map (fun x => ⟨joinName r x.1, x.2.1, x.2.2⟩)

/-- `dfsRecords` over a list of sibling subtrees, in order. -/
def dfsRecordsList (r : String) (l : List ListingNode) : List ArticleRec :=
  (leavesAncList l).map (fun x => ⟨joinName r x.1, x.2.1, x.2.2⟩)

/-- The chain of texts joined with the separator " ^ ", written the way
the specification words it ("the ^-joined chain of ancestor text values"). -/
def specJoin : List String → String
  | [] => ""
  | [a] => a
  | a :: b :: l => a ++ " ^ " ++ specJoin (b :: l)

/-- Navigating a tree along a path of child indices: returns the texts of
the traversed branch nodes (the ancestors of the endpoint, from the start
node inclusive) and the node the path ends at. -/
def follow : List Nat → ListingNode → Option (List String × ListingNode)
  | [], t => some ([], t)
  | i :: p, .branch (some cur) cs _ =>
    match cs.get? i with
    | none => none
    | some c => (follow p c).map (fun x => (cur :: x.1, x.2))
  | _ :: _, _ => none

/-! ## Helper lemmas about the flattener -/

mutual
/-- On a well-formed tree the recursion never sees an exception and emits
exactly the depth-first records. -/
theorem recProcess_eq (r : String) (t : ListingNode) (hw : wellFormed t = true) :
    recProcess r t = (dfsRecords r t, false) := by
  match t with
  | .leaf none _ => simp [wellFormed] at hw
  | .leaf (some cur) none =>
    simp [recProcess, dfsRecords, leavesAnc]
  | .leaf (some cur) (some h) =>
    by_cases hc : cur = "New article" <;>
      simp [recProcess, dfsRecords, leavesAnc, hc, joinName]
  | .branch none cs _ => simp [wellFormed] at hw
  | .branch (some cur) cs _ =>
    simp only [wellFormed, Option.isSome_some, Bool.true_and] at hw
    have h1 := recProcessList_eq (r ++ " ^ " ++ cur) cs hw
    simp only [recProcess, h1, dfsRecords, leavesAnc, List.map_map]
    rfl

theorem recProcessList_eq (r : String) (l : List ListingNode) (hw : wellFormedList l = true) :
    recProcessList r l = (dfsRecordsList r l, false) := by
  match l with
  | [] => simp [recProcessList, dfsRecordsList, leavesAncList]
  | c :: rest =>
    simp only [wellFormedList, Bool.and_eq_true] at hw
    have h1 := recProcess_eq r c hw.1
    have h2 := recProcessList_eq r rest hw.2
    simp only [recProcessList, h1, h2, dfsRecords, dfsRecordsList, leavesAncList,
      List.map_append]
end

mutual
theorem leavesAnc_length (t : ListingNode) (hw : wellFormed t = true) :
    (leavesAnc t).length = countGoodLeaves t := by
  match t with
  | .leaf none _ => rfl
  | .leaf (some cur) none => rfl
  | .leaf (some cur) (some h) =>
    by_cases hc : cur = "New article" <;> simp [leavesAnc, countGoodLeaves, hc]
  | .branch none cs _ => simp [wellFormed] at hw
  | .branch (some cur) cs _ =>
    simp only [wellFormed, Option.isSome_some, Bool.true_and] at hw
    rw [leavesAnc, List.length_map, leavesAncList_length cs hw]
    rfl

theorem leavesAncList_length (l : List ListingNode) (hw : wellFormedList l = true) :
    (leavesAncList l).length = countGoodLeavesList l := by
  match l with
  | [] => rfl
  | c :: rest =>
    simp only [wellFormedList, Bool.and_eq_true] at hw
    rw [leavesAncList, List.length_append, leavesAnc_length c hw.1,
      leavesAncList_length rest hw.2]
    rfl
end

theorem specJoin_append (l : List String) (x y : String) :
    specJoin ((x ++ y) :: l) = x ++ specJoin (y :: l) := by
  match l with
  | [] => simp [specJoin]
  | b :: l' => simp [specJoin, String.append_assoc]

theorem joinName_eq_specJoin (anc : List String) : ∀ r, joinName r anc = specJoin (r :: anc) := by
  induction anc with
  | nil => intro r; rfl
  | cons a l ih =>
    intro r
    rw [joinName, ih, specJoin_append l (r ++ " ^ ") a]
    simp [specJoin]

theorem wellFormedList_mem {l : List ListingNode} {c : ListingNode}
    (hw : wellFormedList l = true) (hc : c ∈ l) : wellFormed c = true := by
  induction l with
  | nil => cases hc
  | cons d rest ih =>
    simp only [wellFormedList, Bool.and_eq_true] at hw
    rcases List.mem_cons.1 hc with h | h
    · subst h; exact hw.1
    · exact ih hw.2 h

theorem leavesAncList_mem {cs : List ListingNode} {c : ListingNode}
    {x : List String × String × String} (hc : c ∈ cs) (hx : x ∈ leavesAnc c) :
    x ∈ leavesAncList cs := by
  induction cs with
  | nil => cases hc
  | cons d rest ih =>
    rw [leavesAncList]
    rcases List.mem_cons.1 hc with h | h
    · subst h; exact List.mem_append_left _ hx
    · exact List.mem_append_right _ (ih h)

/-- A path to an emitting leaf in a well-formed tree yields an entry of
`leavesAnc` whose ancestor chain has the same length as the path. -/
theorem follow_good : ∀ (p : List Nat) (t : ListingNode) (anc : List String) (ti hh : String),
    wellFormed t = true →
    follow p t = some (anc, .leaf (some ti) (some hh)) →
    ti ≠ "New article" →
    (anc, ti, hh) ∈ leavesAnc t ∧ anc.length = p.length := by
  intro p
  induction p with
  | nil =>
    intro t anc ti hh hw hf hne
    simp only [follow, Option.some.injEq, Prod.mk.injEq] at hf
    obtain ⟨h1, h2⟩ := hf
    subst h1; subst h2
    simp [leavesAnc, hne]
  | cons i p ih =>
    intro t anc ti hh hw hf hne
    match t with
    | .leaf _ _ => simp [follow] at hf
    | .branch none cs hr => simp [follow] at hf
    | .branch (some cur) cs hr =>
      rw [follow] at hf
      cases hg : cs.get? i with
      | none => rw [hg] at hf; cases hf
      | some c =>
        rw [hg] at hf
        rw [Option.map_eq_some'] at hf
        obtain ⟨x, hx1, hx2⟩ := hf
        obtain ⟨h1, h2⟩ := Prod.mk.injEq .. ▸ hx2
        have hmem : c ∈ cs := List.get?_mem hg
        simp only [wellFormed, Option.isSome_some, Bool.true_and] at hw
        have hwc : wellFormed c = true := wellFormedList_mem hw hmem
        have hxeq : follow p c = some (x.1, .leaf (some ti) (some hh)) := by
          rw [hx1]; rw [← h2]
        obtain ⟨hin, hlen⟩ := ih c x.1 ti hh hwc hxeq hne
        constructor
        · rw [leavesAnc, ← h1]
          exact List.mem_map_of_mem _ (leavesAncList_mem hmem hin)
        · rw [← h1]
          simp [hlen]

/-- A node with no `text` makes `recProcess` raise at once, emitting nothing. -/
theorem recProcess_raise (r : String) (b : ListingNode) (hb : b.text? = none) :
    recProcess r b = ([], true) := by
  match b with
  | .leaf none _ => rfl
  | .branch none _ _ => rfl
  | .leaf (some _) _ => simp [ListingNode.text?] at hb
  | .branch (some _) _ _ => simp [ListingNode.text?] at hb

/-- Sibling processing stops at the first child whose call raises: the
records of the well-formed earlier siblings survive, everything from the
raising child on is lost, and the escaped exception is reported. -/
theorem recProcessList_append_raise (r : String) (pre post : List ListingNode) (b : ListingNode)
    (hb : b.text? = none) (hw : wellFormedList pre = true) :
    recProcessList r (pre ++ b :: post) = (dfsRecordsList r pre, true) := by
  induction pre with
  | nil =>
    rw [List.nil_append, recProcessList, recProcess_raise r b hb]
    rfl
  | cons c rest ih =>
    simp only [wellFormedList, Bool.and_eq_true] at hw
    rw [List.cons_append, recProcessList, recProcess_eq r c hw.1, ih hw.2]
    simp [dfsRecords, dfsRecordsList, leavesAncList]

/-! ## Claim theorems for the flattener -/

/-- C1: for every well-formed ListingNode tree (every node has `text`),
`recursive_article_list_processing` raises nothing and emits exactly the
depth-first left-to-right document-order records (`dfsRecords`), and the
number of emitted records equals the number of leaf nodes carrying an
`href` whose `text` is not "New article". -/
theorem flatten_emits_dfs_and_count (r : String) (t : ListingNode)
    (hw : wellFormed t = true) :
    recProcess r t = (dfsRecords r t, false) ∧
    (recProcess r t).1.length = countGoodLeaves t := by
  have h := recProcess_eq r t hw
  refine ⟨h, ?_⟩
  rw [h]
  simp only [dfsRecords, List.length_map]
  exact leavesAnc_length t hw

/-- A small concrete well-formed tree: two emitting leaves, one
"New article" sentinel and one leaf without `href`. -/
def exC1 : ListingNode :=
  .branch (some "A")
    [ .leaf (some "x") (some "h1"),
      .leaf (some "New article") (some "h2"),
      .branch (some "B") [ .leaf (some "y") none, .leaf (some "z") (some "h3") ] none ] none

theorem flatten_emits_dfs_and_count_witness :
    wellFormed exC1 = true ∧
    (recProcess "Root" exC1 = (dfsRecords "Root" exC1, false) ∧
     (recProcess "Root" exC1).1.length = countGoodLeaves exC1) :=
  ⟨by rfl, flatten_emits_dfs_and_count "Root" exC1 (by rfl)⟩

/-- C3: in a well-formed listing whose root carries text `rt` and children
`cs` (the shape `parse_articles_lists` requires), the record emitted for
the emitting leaf reached by a path of child indices `p` carries as
`list_name` the " ^ "-joined chain of the texts of its ancestors — from
the listing root inclusive down to, but not including, the leaf — and
that chain has exactly as many entries as the leaf has ancestors
(`p.length`, the depth of the leaf). -/
theorem breadcrumb_joins_ancestors (rt : String) (cs : List ListingNode) (hr : Option String)
    (p : List Nat) (anc : List String) (ti hh : String)
    (hw : wellFormed (.branch (some rt) cs hr) = true)
    (hf : follow p (.branch (some rt) cs hr) = some (anc, .leaf (some ti) (some hh)))
    (hne : ti ≠ "New article") :
    ∃ out, flattenListing (.branch (some rt) cs hr) = some out ∧
      ArticleRec.mk (specJoin anc) ti hh ∈ out ∧ anc.length = p.length := by
  have hwl : wellFormedList cs = true := by
    simpa [wellFormed] using hw
  obtain ⟨hin, hlen⟩ := follow_good p _ anc ti hh hw hf hne
  rw [leavesAnc, List.mem_map] at hin
  obtain ⟨y, hy, hyeq⟩ := hin
  simp only [Prod.mk.injEq] at hyeq
  obtain ⟨e1, e2, e3⟩ := hyeq
  refine ⟨dfsRecordsList rt cs, ?_, ?_, hlen⟩
  · simp [flattenListing, recProcessList_eq rt cs hwl]
  · rw [← e1, ← joinName_eq_specJoin, ← e2, ← e3]
    exact List.mem_map_of_mem _ hy

/-- A concrete listing: the leaf "L" sits at depth 2 under the root "Root"
and the group "Sub". -/
def exC3 : ListingNode :=
  .branch (some "Root")
    [ .leaf (some "a") (some "h1"),
      .branch (some "Sub") [ .leaf (some "L") (some "h2") ] none ] none

theorem breadcrumb_joins_ancestors_witness :
    wellFormed exC3 = true ∧
    follow [1, 0] exC3 = some (["Root", "Sub"], .leaf (some "L") (some "h2")) ∧
    ("L" : String) ≠ "New article" ∧
    (∃ out, flattenListing exC3 = some out ∧
      ArticleRec.mk (specJoin ["Root", "Sub"]) "L" "h2" ∈ out ∧
      (["Root", "Sub"] : List String).length = ([1, 0] : List Nat).length) :=
  ⟨by rfl, by rfl, by decide,
    breadcrumb_joins_ancestors "Root" _ none [1, 0] ["Root", "Sub"] "L" "h2"
      (by rfl) (by rfl) (by decide)⟩

/-- A malformed node (no `text`) with a later emitting sibling "L" under
the same group. -/
def exC4a : ListingNode :=
  .branch (some "Root")
    [ .branch (some "G")
        [ .leaf none (some "x"), .leaf (some "L") (some "h") ] none ] none

/-- A malformed node directly under the listing root, followed by a
sibling group with an emitting leaf "M". -/
def exC4b : ListingNode :=
  .branch (some "Root")
    [ .leaf none none,
      .branch (some "G2") [ .leaf (some "M") (some "h2") ] none ] none

/-- C4 counterexample: contrary to the claim, the later sibling leaf "L"
of the malformed node is NOT emitted (the `except` of the parent call
catches the `KeyError` and abandons the rest of the loop), and a
malformed node directly under the listing root aborts the whole listing
(`parse_articles_lists` has no handler). -/
theorem malformed_subtree_cex :
    flattenListing exC4a = some [] ∧
    (¬ ∃ out, flattenListing exC4a = some out ∧ ArticleRec.mk "Root ^ G" "L" "h" ∈ out) ∧
    flattenListing exC4b = none := by
  refine ⟨rfl, ?_, rfl⟩
  rintro ⟨out, h1, h2⟩
  have h0 : flattenListing exC4a = some [] := rfl
  rw [h0, Option.some.injEq] at h1
  rw [← h1] at h2
  cases h2

/-- C4 amended: a node missing `text` raises a `KeyError` which is caught
by the parent recursive call, so flattening loses the malformed subtree
AND its later siblings under the same parent, keeps the records of the
well-formed earlier siblings, and reports no exception to the levels
above; when the malformed node is a direct child of the listing root the
`KeyError` is uncaught and the whole listing is aborted. -/
theorem malformed_subtree_halts_chain (r cur : String) (pre post : List ListingNode)
    (b : ListingNode) (h : Option String)
    (hb : b.text? = none) (hw : wellFormedList pre = true) :
    recProcess r (.branch (some cur) (pre ++ b :: post) h)
      = (dfsRecordsList (r ++ " ^ " ++ cur) pre, false) ∧
    flattenListing (.branch (some cur) (pre ++ b :: post) h) = none := by
  have h1 := recProcessList_append_raise (r ++ " ^ " ++ cur) pre post b hb hw
  have h2 := recProcessList_append_raise cur pre post b hb hw
  constructor
  · rw [recProcess, h1]
  · simp [flattenListing, h2]

theorem malformed_subtree_halts_chain_witness :
    (ListingNode.leaf none none).text? = none ∧
    wellFormedList [ListingNode.leaf (some "a") (some "h1")] = true ∧
    (recProcess "R" (.branch (some "G")
        ([ListingNode.leaf (some "a") (some "h1")] ++ ListingNode.leaf none none ::
          [ListingNode.leaf (some "c") (some "h3")]) none)
      = (dfsRecordsList ("R" ++ " ^ " ++ "G") [ListingNode.leaf (some "a") (some "h1")], false) ∧
    flattenListing (.branch (some "G")
        ([ListingNode.leaf (some "a") (some "h1")] ++ ListingNode.leaf none none ::
          [ListingNode.leaf (some "c") (some "h3")]) none) = none) :=
  ⟨by rfl, by rfl,
    malformed_subtree_halts_chain "R" "G" [ListingNode.leaf (some "a") (some "h1")]
      [ListingNode.leaf (some "c") (some "h3")] (ListingNode.leaf none none) none
      (by rfl) (by rfl)⟩

/-! ## Section content accumulation (`parse_article`, lines 260-269) -/

/-- `MAX_PARAGRAPH_LENGTH` of the script (line 29). -/
def MAX_PARAGRAPH_LENGTH : Nat := 2048

/-- Embedding of the paragraph loop of `parse_article`: walk the direct
child paragraphs in order with a running total; `break` as soon as adding
the next paragraph would push the total beyond the cap, else keep the
paragraph and add its length. -/
def collectParagraphs : List String → Nat → List String
  | [], _ => []
  | p :: ps, cur =>
    if p.length + cur > MAX_PARAGRAPH_LENGTH then []
    else p :: collectParagraphs ps (cur + p.length)

/-- The content of one section: `"".join(p_content)`. -/
def sectionContent (ps : List String) : String :=
  String.join (collectParagraphs ps 0)

/-- Total length of a list of paragraph texts. -/
def sumLen (l : List String) : Nat := (l.map String.length).sum

theorem join_cons (s : String) (l : List String) :
    String.join (s :: l) = s ++ String.join l := by
  apply String.ext
  simp [String.join_eq, String.data_append]

theorem join_length (l : List String) : (String.join l).length = sumLen l := by
  induction l with
  | nil => rfl
  | cons s l ih => rw [join_cons, String.length_append, ih]; simp [sumLen]

/-- Paragraph of 1000 units, for the concrete cases of the specification. -/
def str1000 : String := String.mk (List.replicate 1000 'a')

/-- Paragraph of 100 units. -/
def str100 : String := String.mk (List.replicate 100 'b')

/-- Paragraph of 2049 units, longer than the cap on its own. -/
def str2049 : String := String.mk (List.replicate 2049 'c')

theorem mk_replicate_length (n : Nat) (c : Char) :
    (String.mk (List.replicate n c)).length = n := by
  show (List.replicate n c).length = n
  simp

theorem str1000_length : str1000.length = 1000 := mk_replicate_length 1000 'a'

theorem str100_length : str100.length = 100 := mk_replicate_length 100 'b'

theorem str2049_length : str2049.length = 2049 := mk_replicate_length 2049 'c'

theorem collect_ex1 : (sectionContent [str1000, str1000, str100]).length = 2000 := by
  have h : collectParagraphs [str1000, str1000, str100] 0 = [str1000, str1000] := by
    simp [collectParagraphs, str1000_length, str100_length, MAX_PARAGRAPH_LENGTH]
  rw [sectionContent, h, join_length]
  simp [sumLen, str1000_length]

theorem collect_ex2 : sectionContent [str2049] = "" := by
  have h : collectParagraphs [str2049] 0 = [] := by
    simp [collectParagraphs, str2049_length, MAX_PARAGRAPH_LENGTH]
  rw [sectionContent, h]
  rfl

/-- The kept paragraphs are the longest prefix whose running totals stay
within the cap, starting from `cur`. -/
theorem collect_take (ps : List String) : ∀ cur, ∃ k, k ≤ ps.length ∧
    collectParagraphs ps cur = ps.take k ∧
    (∀ j, j < k → cur + sumLen (ps.take (j + 1)) ≤ 2048) ∧
    (k < ps.length → 2048 < cur + sumLen (ps.take (k + 1))) := by
  induction ps with
  | nil =>
    intro cur
    exact ⟨0, by simp [collectParagraphs]⟩
  | cons p ps ih =>
    intro cur
    by_cases hc : p.length + cur > MAX_PARAGRAPH_LENGTH
    · refine ⟨0, by simp, ?_, ?_, ?_⟩
      · simp [collectParagraphs, hc]
      · intro j hj; omega
      · intro _
        simp only [List.take_succ_cons, List.take_zero, sumLen, List.map_cons, List.map_nil,
          List.sum_cons, List.sum_nil]
        simp [MAX_PARAGRAPH_LENGTH] at hc
        omega
    · obtain ⟨k, hk, h1, h2, h3⟩ := ih (cur + p.length)
      refine ⟨k + 1, by simpa using hk, ?_, ?_, ?_⟩
      · simp [collectParagraphs, hc, h1]
      · intro j hj
        match j with
        | 0 =>
          simp only [List.take_succ_cons, List.take_zero, sumLen, List.map_cons, List.map_nil,
            List.sum_cons, List.sum_nil]
          simp [MAX_PARAGRAPH_LENGTH] at hc
          omega
        | j' + 1 =>
          have := h2 j' (by omega)
          simp only [List.take_succ_cons, sumLen, List.map_cons, List.sum_cons] at *
          omega
      · intro hlt
        have := h3 (by simpa using hlt)
        simp only [List.take_succ_cons, sumLen, List.map_cons, List.sum_cons] at *
        omega

/-- C2: the content of a section is the concatenation of the longest
prefix of its direct-child paragraphs whose accumulated length never
exceeds 2048 (a paragraph is dropped, with everything after it, exactly
when adding its length would exceed the cap); in particular paragraph
lengths [1000, 1000, 100] yield content of length 2000 and a single
paragraph of length 2049 yields empty content. -/
theorem section_content_cap (ps : List String) :
    (∃ k, k ≤ ps.length ∧ collectParagraphs ps 0 = ps.take k ∧
      sectionContent ps = String.join (ps.take k) ∧
      (∀ j, j < k → sumLen (ps.take (j + 1)) ≤ 2048) ∧
      (k < ps.length → 2048 < sumLen (ps.take (k + 1)))) ∧
    (sectionContent [str1000, str1000, str100]).length = 2000 ∧
    sectionContent [str2049] = "" := by
  refine ⟨?_, collect_ex1, collect_ex2⟩
  obtain ⟨k, hk, h1, h2, h3⟩ := collect_take ps 0
  refine ⟨k, hk, h1, by rw [sectionContent, h1], ?_, ?_⟩
  · intro j hj
    have := h2 j hj
    omega
  · intro hlt
    have := h3 hlt
    omega

/-! ## Article-id extraction (`fetch_articles_page`, line 196)

Embedding of `re.search(r'p_artikkeli=(\w+)', href)`: the regex engine
tries each start position left to right; a position matches when the
literal `"p_artikkeli="` is a prefix of the remaining text followed by at
least one word character, and the capture is the maximal run of word
characters after the literal. -/

/-- A word character of the pattern `\w` (letters, digits, underscore;
the hrefs of the site are ASCII). -/
def isWordChar (c : Char) : Bool := c.isAlphanum || c = '_'

/-- The literal part of the pattern, 12 characters. -/
def artikkeliPat : List Char := "p_artikkeli=".data

/-- Greedy `\w+`: the maximal leading run of word characters. -/
def takeWord : List Char → List Char
  | [] => []
  | c :: cs => if isWordChar c then c :: takeWord cs else []

/-- Does the text start with a word character (`\w+` needs at least one)? -/
def wordHead : List Char → Bool
  | [] => false
  | c :: _ => isWordChar c

/-- Scan start positions left to right and return the first capture. -/
def searchCapture : List Char → Option (List Char)
  | [] => none
  | c :: cs =>
    if artikkeliPat.isPrefixOf (c :: cs) && wordHead (List.drop 12 (c :: cs)) then
      some (takeWord (List.drop 12 (c :: cs)))
    else searchCapture cs

/-- `re.search(r'p_artikkeli=(\w+)', href).groups()[0]`, with `none` for
the `AttributeError` the code raises when `re.search` returns no match. -/
def extractArticleId (href : String) : Option String :=
  (searchCapture href.data).map String.mk

/-- Specification-side predicate: the pattern matches at start position
`i` of the text. -/
def matchAtB (l : List Char) (i : Nat) : Bool :=
  artikkeliPat.isPrefixOf (l.drop i) && wordHead (l.drop (i + 12))

theorem matchAtB_succ (c : Char) (cs : List Char) (i : Nat) :
    matchAtB (c :: cs) (i + 1) = matchAtB cs i := by
  have h : i + 1 + 12 = (i + 12) + 1 := by omega
  simp only [matchAtB, h, List.drop_succ_cons]

theorem matchAtB_nil (i : Nat) : matchAtB [] i = false := by
  rw [matchAtB]
  have h1 : List.drop i ([] : List Char) = [] := List.drop_nil
  rw [h1]
  have h2 : List.drop (i + 12) ([] : List Char) = [] := List.drop_nil
  rw [h2]
  rfl

theorem matchAtB_zero (l : List Char) :
    matchAtB l 0 = (artikkeliPat.isPrefixOf l && wordHead (List.drop 12 l)) := by
  rw [matchAtB, List.drop_zero, Nat.zero_add]

theorem searchCapture_none (l : List Char) :
    searchCapture l = none ↔ ∀ i, matchAtB l i = false := by
  induction l with
  | nil =>
    constructor
    · intro _ i; exact matchAtB_nil i
    · intro _; rfl
  | cons c cs ih =>
    rw [searchCapture]
    by_cases hc : (artikkeliPat.isPrefixOf (c :: cs) && wordHead (List.drop 12 (c :: cs))) = true
    · rw [if_pos hc]
      constructor
      · intro h; cases h
      · intro h
        have h0 := h 0
        rw [matchAtB_zero] at h0
        rw [h0] at hc
        cases hc
    · rw [if_neg hc, ih]
      have hcf : (artikkeliPat.isPrefixOf (c :: cs) && wordHead (List.drop 12 (c :: cs))) = false :=
        Bool.not_eq_true _ ▸ Bool.of_not_eq_true hc
      constructor
      · intro h i
        match i with
        | 0 => rw [matchAtB_zero]; exact hcf
        | i + 1 => rw [matchAtB_succ]; exact h i
      · intro h i
        have := h (i + 1)
        rw [matchAtB_succ] at this
        exact this

theorem searchCapture_some (l : List Char) (w : List Char) :
    searchCapture l = some w →
    ∃ i, matchAtB l i = true ∧ (∀ j, j < i → matchAtB l j = false) ∧
      w = takeWord (l.drop (i + 12)) := by
  induction l with
  | nil => intro h; cases h
  | cons c cs ih =>
    intro h
    rw [searchCapture] at h
    by_cases hc : (artikkeliPat.isPrefixOf (c :: cs) && wordHead (List.drop 12 (c :: cs))) = true
    · rw [if_pos hc] at h
      refine ⟨0, ?_, ?_, ?_⟩
      · rw [matchAtB_zero]; exact hc
      · intro j hj; omega
      · have hw : takeWord (List.drop 12 (c :: cs)) = w := Option.some_inj.mp h
        rw [← hw, Nat.zero_add]
    · rw [if_neg hc] at h
      have hcf : (artikkeliPat.isPrefixOf (c :: cs) && wordHead (List.drop 12 (c :: cs))) = false :=
        Bool.not_eq_true _ ▸ Bool.of_not_eq_true hc
      obtain ⟨i, h1, h2, h3⟩ := ih h
      refine ⟨i + 1, ?_, ?_, ?_⟩
      · rw [matchAtB_succ]; exact h1
      · intro j hj
        match j with
        | 0 => rw [matchAtB_zero]; exact hcf
        | j + 1 => rw [matchAtB_succ]; exact h2 j (by omega)
      · have heq : i + 1 + 12 = (i + 12) + 1 := by omega
        rw [heq, List.drop_succ_cons]
        exact h3

/-- C6: `article_id` extraction returns the first (leftmost) capture of
`p_artikkeli=(\w+)` when the pattern matches — in particular the href
"tk.koti?p_artikkeli=far00607&p_teos=far" yields "far00607" — and fails
(no id; the code raises, which the specification labels
`MalformedListingError`) exactly when the href contains no match. -/
theorem article_id_first_capture :
    extractArticleId "tk.koti?p_artikkeli=far00607&p_teos=far" = some "far00607" ∧
    (∀ s : String, extractArticleId s = none ↔ ∀ i, matchAtB s.data i = false) ∧
    (∀ s w, extractArticleId s = some w →
      ∃ i, matchAtB s.data i = true ∧ (∀ j, j < i → matchAtB s.data j = false) ∧
        w = String.mk (takeWord (s.data.drop (i + 12)))) := by
  refine ⟨by decide, ?_, ?_⟩
  · intro s
    rw [extractArticleId, Option.map_eq_none']
    exact searchCapture_none s.data
  · intro s w h
    rw [extractArticleId, Option.map_eq_some'] at h
    obtain ⟨lw, h1, h2⟩ := h
    obtain ⟨i, m1, m2, m3⟩ := searchCapture_some s.data lw h1
    exact ⟨i, m1, m2, by rw [← h2, m3]⟩

/-! ## The per-category article loop (`fetch_articles_page`, lines 182-209)

The whole `for article in articles_lists` loop sits inside one `try`.  A
failed fetch hits the `continue` (skip, keep going); a missing article-id
pattern makes `re.search(...).groups()` raise `AttributeError`, which the
`except` OUTSIDE the loop catches — the loop is over, the remaining
articles of the category are never processed.  The HTTP capability is an
oracle `fetch : url → Option html`. -/

/-- `ROOT_URL` of the script (line 27). -/
def ROOT_URL : String := "https://www.terveyskirjasto.fi/terveyskirjasto/tk.koti"

/-- `ROOT_URL.replace("tk.koti", article['article_href'])` (line 188). -/
def articleUrl (href : String) : String := ROOT_URL.replace "tk.koti" href

/-- One record yielded by `fetch_articles_page`. -/
structure ArticleOut where
  list_name : String
  article_id : String
  title : String
  article_html : String
deriving DecidableEq, Repr

/-- The records `fetch_articles_page` yields for a flattened article list. -/
def fetch_articles_page (fetch : String → Option String) : List ArticleRec → List ArticleOut
  | [] => []
  | a :: rest =>
    match fetch (articleUrl a.article_href) with
    | none => fetch_articles_page fetch rest
    | some html =>
      match extractArticleId a.article_href with
      | none => []
      | some aid => ⟨a.list_name, aid, a.title, html⟩ :: fetch_articles_page fetch rest

/-- An article whose href has no `p_artikkeli=` pattern. -/
def exA1 : ArticleRec := ⟨"L", "T1", "nopattern"⟩

/-- A healthy article after it. -/
def exA2 : ArticleRec := ⟨"L", "T2", "tk.koti?p_artikkeli=abc"⟩

/-! ## Article extraction (`parse_article`, lines 212-279) -/

/-- An element with class "section": its direct-child `h2`/`h3` headings
and the texts of its direct-child paragraphs, in document order. -/
structure SectionElem where
  h2 : Option String
  h3 : Option String
  paragraphs : List String

/-- The article root element (`id="duo-article"`): the keywords meta
content when present, the text of the first `h1` when present, and the
elements with class "section" in document order. -/
structure ArticleElem where
  metaKeywords : Option String
  h1 : Option String
  sections : List SectionElem

/-- An article HTML document, abstracted to what `parse_article` reads. -/
structure ArticleHtml where
  duoArticle : Option ArticleElem

/-- The per-article input `parse_article` receives from `fetch_articles_page`. -/
structure ArticleContent where
  list_name : String
  article_id : String
  title : String
  article_html : ArticleHtml

/-- One entry of `article_paragraphs`. -/
structure SectionRec where
  name : String
  content : String
  h2 : String
  h3 : String
deriving DecidableEq, Repr

/-- The dict `parse_article` yields: `keywords` is `none` when the key was
never created (no meta element), `article_paragraphs` is `none` when the
key was never created (no section element). -/
structure ParsedArticle where
  list_name : String
  title : String
  article_id : String
  keywords : Option String
  article_paragraphs : Option (List SectionRec)
deriving DecidableEq, Repr

/-- The record built for one section element: the name is the first 8
characters of the article h1 (the same for every section of the article),
missing direct headings default to "". -/
def parseSection (h1text : String) (sec : SectionElem) : SectionRec :=
  { name := h1text.take 8
    content := sectionContent sec.paragraphs
    h2 := sec.h2.getD ""
    h3 := sec.h3.getD "" }

/-- Embedding of one iteration of `parse_article`: with no `duo-article`
element, `article.find(...)` on `None` raises `AttributeError`; with
sections present but no `h1`, `h1.text` raises `AttributeError`;
otherwise the parsed dict is yielded, `article_paragraphs` being created
only when at least one section exists. -/
def parse_article_one (c : ArticleContent) : Except PyErr ParsedArticle :=
  match c.article_html.duoArticle with
  | none => .error .attributeError
  | some elem =>
    match elem.sections with
    | [] =>
      .ok { list_name := c.list_name, title := c.title, article_id := c.article_id,
            keywords := elem.metaKeywords, article_paragraphs := none }
    | s :: rest =>
      match elem.h1 with
      | none => .error .attributeError
      | some h1t =>
        .ok { list_name := c.list_name, title := c.title, article_id := c.article_id,
              keywords := elem.metaKeywords,
              article_paragraphs := some ((s :: rest).map (parseSection h1t)) }

/-- C7: an article HTML document with no element of id "duo-article"
makes extraction of that article fail (the code raises `AttributeError`
on `None`; the specification labels this failure `ExtractionError`). -/
theorem missing_root_extraction_error (c : ArticleContent)
    (hd : c.article_html.duoArticle = none) :
    parse_article_one c = .error .attributeError := by
  simp only [parse_article_one, hd]

/-- An article content whose HTML has no `duo-article` element. -/
def exNoRoot : ArticleContent := ⟨"L", "id1", "T", ⟨none⟩⟩

theorem missing_root_extraction_error_witness :
    exNoRoot.article_html.duoArticle = none ∧
    parse_article_one exNoRoot = .error .attributeError :=
  ⟨by rfl, missing_root_extraction_error exNoRoot (by rfl)⟩

/-- Embedding of the `async for` loop of `parse_article` over one
category's article records (their fetched HTML abstracted to
`ArticleHtml`): each record is parsed in order and yielded.  The loop
body has no `try`, so the first extraction error propagates out of the
generator chain: the articles already yielded stand, the failing article
and everything after it are never parsed, and the error escapes into
`store_to_db`, which has no handler either — the category task dies.
Returns the yielded parses and the escaped exception, if any. -/
def parse_article_list : List ArticleContent → List ParsedArticle × Option PyErr
  | [] => ([], none)
  | c :: rest =>
    match parse_article_one c with
    | .error e => ([], some e)
    | .ok p =>
      match parse_article_list rest with
      | (ps, err) => (p :: ps, err)

/-- When the articles before `c` all parse and `c` fails, the loop yields
exactly the earlier parses and the error escapes; nothing after `c` is
processed. -/
theorem parse_article_list_append_error (pre : List ArticleContent) (c : ArticleContent)
    (tail : List ArticleContent) (e : PyErr)
    (hp : (parse_article_list pre).2 = none) (hc : parse_article_one c = .error e) :
    parse_article_list (pre ++ c :: tail) = ((parse_article_list pre).1, some e) := by
  induction pre with
  | nil => simp [parse_article_list, hc]
  | cons d rest ih =>
    cases hd : parse_article_one d with
    | error e2 =>
      rw [parse_article_list, hd] at hp
      cases hp
    | ok p =>
      rw [parse_article_list, hd] at hp
      rw [List.cons_append, parse_article_list, hd, ih hp, parse_article_list, hd]

/-- An article whose HTML lacks the `duo-article` root element (its
extraction raises). -/
def exBadContent : ArticleContent := ⟨"L", "idb", "Tb", ⟨none⟩⟩

/-- A healthy article after it: root present, an `h1` and one section. -/
def exGoodContent : ArticleContent :=
  ⟨"L", "idg", "Tg", ⟨some ⟨none, some "Head", [⟨none, none, ["p1"]⟩]⟩⟩⟩

/-- C5 counterexample: the claim fails for two of its three failure
kinds.  With every fetch succeeding, an href without the article-id
pattern in the FIRST article stops the whole category loop, so the
second, healthy article is never yielded; and an extraction error in the
first article kills the generator chain, so the healthy article after it
is never parsed — in both cases the pipeline does NOT continue with the
remaining articles. -/
theorem per_article_isolation_cex :
    fetch_articles_page (fun _ => some "<html>") [exA1, exA2] = [] ∧
    (¬ ∃ r ∈ fetch_articles_page (fun _ => some "<html>") [exA1, exA2], r.title = "T2") ∧
    parse_article_list [exBadContent, exGoodContent] = ([], some .attributeError) ∧
    (¬ ∃ p ∈ (parse_article_list [exBadContent, exGoodContent]).1, p.title = "Tg") := by
  refine ⟨rfl, ?_, rfl, ?_⟩
  · rintro ⟨r, hr, _⟩
    rw [show fetch_articles_page (fun _ => some "<html>") [exA1, exA2] = [] from rfl] at hr
    cases hr
  · rintro ⟨p, hp, _⟩
    rw [show (parse_article_list [exBadContent, exGoodContent]).1 = [] from rfl] at hp
    cases hp

/-- C5 amended: only an article-page fetch failure is skipped with the
pipeline continuing to the remaining articles of the category.  An href
lacking the article-id pattern raises inside the loop and the `except`
outside the loop catches it: the remaining articles of that category are
dropped (earlier yields stand).  A healthy article is yielded and
processing continues.  An extraction error propagates out of the
generator chain and aborts the category pipeline: the parses yielded
before it stand, the failing article and every later article of the
category are never parsed, and the error escapes unhandled. -/
theorem per_article_failure_modes (fetch : String → Option String) (a : ArticleRec)
    (rest : List ArticleRec) :
    (fetch (articleUrl a.article_href) = none →
      fetch_articles_page fetch (a :: rest) = fetch_articles_page fetch rest) ∧
    (∀ html, fetch (articleUrl a.article_href) = some html →
      extractArticleId a.article_href = none →
      fetch_articles_page fetch (a :: rest) = []) ∧
    (∀ html aid, fetch (articleUrl a.article_href) = some html →
      extractArticleId a.article_href = some aid →
      fetch_articles_page fetch (a :: rest)
        = ⟨a.list_name, aid, a.title, html⟩ :: fetch_articles_page fetch rest) ∧
    (∀ (pre tail : List ArticleContent) (c : ArticleContent) (e : PyErr),
      (parse_article_list pre).2 = none → parse_article_one c = .error e →
      parse_article_list (pre ++ c :: tail) = ((parse_article_list pre).1, some e)) := by
  refine ⟨?_, ?_, ?_, ?_⟩
  · intro h
    rw [fetch_articles_page, h]
  · intro html h1 h2
    rw [fetch_articles_page, h1, h2]
  · intro html aid h1 h2
    rw [fetch_articles_page, h1, h2]
  · intro pre tail c e hp hc
    exact parse_article_list_append_error pre c tail e hp hc

/-! ## Persistence (`store_to_db`, lines 294-358) -/

/-- One category descriptor, as produced by `parse_categories`. -/
structure CategoryDescriptor where
  category_main : String
  subcategory_name : String
  teos : String
deriving DecidableEq, Repr

/-- One row of the `content` table. -/
structure ContentRow where
  description : String
  text : String
deriving DecidableEq, Repr

/-- One row of the `articles` table. -/
structure ArticleRow where
  main_category : String
  sub_category : String
  list_name : String
  article_id : String
  article_name : String
  h2_name : String
  h3_name : String
  keywords : String
  content_id : Nat
deriving DecidableEq, Repr

/-- What `store_to_db` did for one parsed article: the rows that reached
the database and the exception, if one escaped the function. -/
structure StoreOutcome where
  contentRows : List ContentRow
  articleRows : List ArticleRow
  err : Option PyErr
deriving DecidableEq, Repr

/-- The `for a in articles_obj['article_paragraphs']` loop.  Each
iteration first inserts the content row (its auto-generated id is
`nextId`), then builds the articles INSERT inside the second `try`: the
f-string reads `articles_obj['keywords']`, so with the key absent a
`KeyError` is raised before `add_article` is ever bound, and the handler
itself — which interpolates `add_article` into its log message — raises
`NameError`, which nothing catches. -/
def storeSections (cat : CategoryDescriptor) (art : ParsedArticle) :
    List SectionRec → Nat → List ContentRow → List ArticleRow → StoreOutcome
  | [], _, cr, ar => ⟨cr, ar, none⟩
  | s :: rest, nextId, cr, ar =>
    match art.keywords with
    | none => ⟨cr ++ [⟨s.name, s.content⟩], ar, some (.nameError "add_article")⟩
    | some kw =>
      storeSections cat art rest (nextId + 1) (cr ++ [⟨s.name, s.content⟩])
        (ar ++ [⟨cat.category_main, cat.subcategory_name, art.list_name, art.article_id,
          art.title, s.h2, s.h3, kw, nextId⟩])

/-- Embedding of the per-article body of `store_to_db`: iterating
`articles_obj['article_paragraphs']` raises `KeyError` (uncaught) when
the key is absent; otherwise the sections are written in order, content
row ids counting up from `firstContentId`. -/
def store_article (cat : CategoryDescriptor) (firstContentId : Nat)
    (art : ParsedArticle) : StoreOutcome :=
  match art.article_paragraphs with
  | none => ⟨[], [], some (.keyError "article_paragraphs")⟩
  | some secs => storeSections cat art secs firstContentId [] []

/-- C9: for an article without the `keywords` key, `store_to_db` writes
no articles-table row at all: on the first section the INSERT f-string
raises `KeyError` and the handler then raises an unhandled `NameError`
(`add_article` was never bound), which escapes `store_to_db` instead of
being logged and skipped; only the first content row was written. -/
theorem missing_keywords_nameerror (cat : CategoryDescriptor) (n0 : Nat)
    (art : ParsedArticle) (s : SectionRec) (rest : List SectionRec)
    (hk : art.keywords = none) (hp : art.article_paragraphs = some (s :: rest)) :
    (store_article cat n0 art).articleRows = [] ∧
    (store_article cat n0 art).err = some (.nameError "add_article") ∧
    (store_article cat n0 art).contentRows = [⟨s.name, s.content⟩] := by
  simp [store_article, hp, storeSections, hk]

/-- A parsed article with one section and no keywords key. -/
def exNoKw : ParsedArticle :=
  ⟨"L", "T", "id2", none, some [⟨"nm", "ct", "", ""⟩]⟩

/-- A category for the concrete store runs. -/
def exCat : CategoryDescriptor := ⟨"Main", "Sub", "teos1"⟩

theorem missing_keywords_nameerror_witness :
    exNoKw.keywords = none ∧ exNoKw.article_paragraphs = some [⟨"nm", "ct", "", ""⟩] ∧
    ((store_article exCat 1 exNoKw).articleRows = [] ∧
     (store_article exCat 1 exNoKw).err = some (.nameError "add_article") ∧
     (store_article exCat 1 exNoKw).contentRows = [⟨"nm", "ct"⟩]) :=
  ⟨by rfl, by rfl,
    missing_keywords_nameerror exCat 1 exNoKw ⟨"nm", "ct", "", ""⟩ [] (by rfl) (by rfl)⟩

/-- C10: an article whose HTML has zero elements with class "section"
yields a record without the `article_paragraphs` key, and `store_to_db`
then raises an unhandled `KeyError` on that key, writing no rows at all
(the escaping exception aborts that category's pipeline). -/
theorem no_sections_keyerror (c : ArticleContent) (elem : ArticleElem)
    (cat : CategoryDescriptor) (n0 : Nat)
    (hd : c.article_html.duoArticle = some elem) (hs : elem.sections = []) :
    ∃ p, parse_article_one c = .ok p ∧ p.article_paragraphs = none ∧
      store_article cat n0 p = ⟨[], [], some (.keyError "article_paragraphs")⟩ := by
  refine ⟨{ list_name := c.list_name, title := c.title, article_id := c.article_id,
            keywords := elem.metaKeywords, article_paragraphs := none }, ?_, rfl, rfl⟩
  simp only [parse_article_one, hd, hs]

/-- An article whose root element has no sections. -/
def exNoSections : ArticleContent :=
  ⟨"L", "id3", "T", ⟨some ⟨some "kw", some "Heading", []⟩⟩⟩

theorem no_sections_keyerror_witness :
    exNoSections.article_html.duoArticle = some ⟨some "kw", some "Heading", []⟩ ∧
    (∃ p, parse_article_one exNoSections = .ok p ∧ p.article_paragraphs = none ∧
      store_article exCat 1 p = ⟨[], [], some (.keyError "article_paragraphs")⟩) :=
  ⟨by rfl,
    no_sections_keyerror exNoSections ⟨some "kw", some "Heading", []⟩ exCat 1 (by rfl) (by rfl)⟩

/-! ## Category parsing (`parse_categories`, lines 44-83)

The navigation page is abstracted to what the function reads: the element
with id "vakionavi" (absent for an empty page) and, inside it, child
groups of anchors.  `cat_name` is a Python local: unbound until the first
main-menu anchor, then persisting across anchors and groups. -/

/-- One anchor of the left menu. -/
structure Anchor where
  isMainMenuItem : Bool
  text : String
  href : String

/-- One child of the navigation container: the literal newline strings
the code skips, or an element holding anchors. -/
inductive CatChild where
  | newlineText
  | elem (anchors : List Anchor)

/-- The navigation page: `none` when `bs.find(id="vakionavi")` finds
nothing (so for the empty page). -/
structure MainPage where
  vakionavi : Option (List CatChild)

/-- The argument of `parse_categories`: Python `None` (a failed
`get_page`) or a page. -/
inductive PageInput where
  | pyNone
  | page (p : MainPage)

/-- The inner `for a in cat.find_all("a")` loop: a main-menu anchor
rebinds `cat_name`; any other anchor reads `href.split("=")[1]`
(`IndexError` without "="), then builds the descriptor (`NameError` when
`cat_name` is still unbound). -/
def processAnchors (catName : Option String) (acc : List CategoryDescriptor) :
    List Anchor → Except PyErr (Option String × List CategoryDescriptor)
  | [] => .ok (catName, acc)
  | a :: rest =>
    if a.isMainMenuItem then processAnchors (some a.text) acc rest
    else
      match (a.href.splitOn "=").get? 1 with
      | none => .error .indexError
      | some teos =>
        match catName with
        | none => .error (.nameError "cat_name")
        | some cn => processAnchors catName (acc ++ [⟨cn, a.text, teos⟩]) rest

/-- The outer `for cat in categories_root.children` loop. -/
def processChildren (catName : Option String) (acc : List CategoryDescriptor) :
    List CatChild → Except PyErr (List CategoryDescriptor)
  | [] => .ok acc
  | .newlineText :: rest => processChildren catName acc rest
  | .elem anchors :: rest =>
    match processAnchors catName acc anchors with
    | .error e => .error e
    | .ok (cn, acc2) => processChildren cn acc2 rest

/-- Embedding of `parse_categories`.  Python `None` input dies in
`BeautifulSoup(None, ...)` with an uncaught `TypeError` (`len(None)`),
before the `try`.  An empty page parses to a soup without the
"vakionavi" element, so `categories_root` is `None` and
`categories_root.children` raises `AttributeError` INSIDE the `try`: the
handler logs and returns Python `None` — not a list.  Any exception of
the loops is likewise caught and turned into `None`. -/
def parse_categories : PageInput → Except PyErr (Option (List CategoryDescriptor))
  | .pyNone => .error .typeError
  | .page p =>
    match p.vakionavi with
    | none => .ok none
    | some children =>
      match processChildren none [] children with
      | .error _ => .ok none
      | .ok out => .ok (some out)

/-- C8 counterexample: for the empty navigation page the function does
not fail, but it returns Python `None` — not the empty list of category
descriptors the claim states. -/
theorem empty_page_none_cex :
    parse_categories (.page ⟨none⟩) = .ok none ∧
    parse_categories (.page ⟨none⟩) ≠ .ok (some ([] : List CategoryDescriptor)) :=
  ⟨rfl, fun h => Option.noConfusion (Except.ok.inj h)⟩

/-- C8 amended: an empty navigation page is logged and the missing
navigation container is swallowed by the handler, which returns Python
`None` (no descriptor list) instead of raising; the caller must cope with
`None` itself (a `None` page input, by contrast, raises `TypeError`
before the `try`). -/
theorem empty_page_logged_not_fatal :
    parse_categories (.page ⟨none⟩) = .ok none ∧
    parse_categories .pyNone = .error .typeError :=
  ⟨rfl, rfl⟩
